import Mathlib

/-!
# gl-keyvault: shallow embedding and verification

A shallow embedding of the gl-keyvault request-relay pipeline and its
credential store (TypeScript source: `lib/encryption.ts`, `lib/auth.ts`,
`lib/storage.ts`, `lib/audit.ts`, `api/proxy.ts`, `api/keys/register.ts`),
together with theorems settling the specification claims about them.

Bytes are modelled as `Nat` values below 256, JS strings as Lean `String`,
unix-ms timestamps as `Int`, and fallible operations as `Except String`.
-/

namespace GLVault

/-! ## Hex encoding and decoding (Node `Buffer` hex codec)

`Buffer.from(s, "hex")` in Node decodes two characters at a time and stops
at the first pair containing a non-hex-digit character (an odd trailing
character is dropped).  `buf.toString("hex")` renders lowercase hex. -/

def hexDigitVal (c : Char) : Option Nat :=
  if '0' ≤ c ∧ c ≤ '9' then some (c.toNat - '0'.toNat)
  else if 'a' ≤ c ∧ c ≤ 'f' then some (c.toNat - 'a'.toNat + 10)
  else if 'A' ≤ c ∧ c ≤ 'F' then some (c.toNat - 'A'.toNat + 10)
  else none

/-- Node `Buffer.from(chars, "hex")`: consume hex-digit pairs, stopping at
the first invalid or incomplete pair. -/
def nodeHexDecode : List Char → List Nat
  | c1 :: c2 :: rest =>
    match hexDigitVal c1, hexDigitVal c2 with
    | some h, some l => (16 * h + l) :: nodeHexDecode rest
    | _, _ => []
  | _ => []

def toHexDigit (n : Nat) : Char :=
  if n < 10 then Char.ofNat ('0'.toNat + n)
  else Char.ofNat ('a'.toNat + n - 10)

def hexEncodeBytes : List Nat → List Char
  | [] => []
  | b :: rest => toHexDigit (b / 16) :: toHexDigit (b % 16) :: hexEncodeBytes rest

/-- `buf.toString("hex")`: lowercase hex rendering of a byte list. -/
def hexEncode (bs : List Nat) : String := ⟨hexEncodeBytes bs⟩

def IsByte (b : Nat) : Prop := b < 256

/-- JS `String.prototype.split` with a single-character separator, on char
lists: every occurrence of `sep` starts a new segment. -/
def splitChars (sep : Char) : List Char → List (List Char)
  | [] => [[]]
  | c :: rest =>
    if c = sep then [] :: splitChars sep rest
    else
      match splitChars sep rest with
      | h :: t => (c :: h) :: t
      | [] => [[c]]

/-- JS `s.split(sep)` for a one-character separator. -/
def jsSplit (s : String) (sep : Char) : List String :=
  (splitChars sep s.data).map (fun l => ⟨l⟩)

/-! ## JS string / byte boundary

Modelled from the spec: the utf8 codec used at the JS string boundary
(`cipher.update(plaintext, "utf8")`, `decipher.update(_, "hex", "utf8")`) is
a library primitive not present in the repository sources; it is abstracted
here as an injective total byte encoding of unicode code points (three bytes
per code point, big-endian), with `bytesToChars` its inverse. -/

def charBytes (c : Char) : List Nat :=
  [c.toNat / 65536, c.toNat / 256 % 256, c.toNat % 256]

def strBytes (s : String) : List Nat := s.data.flatMap charBytes

def bytesToChars : List Nat → List Char
  | b0 :: b1 :: b2 :: rest => Char.ofNat (b0 * 65536 + b1 * 256 + b2) :: bytesToChars rest
  | _ => []

def bytesToStr (bs : List Nat) : String := ⟨bytesToChars bs⟩

/-! ## Cipher and MAC primitives

Modelled from the spec: AES-256-GCM and HMAC-SHA-256 are Node `crypto`
library primitives, not code of this repository.  Per §4.B of the
specification, the cipher is authenticated symmetric encryption whose
keystream is a deterministic function of (key, iv) XOR-combined with the
plaintext (the CTR-mode structure of GCM), with a 16-byte tag that is a
deterministic function of (key, iv, ciphertext) and is verified before any
plaintext is released; the MAC is a deterministic 32-byte tag of
(secret, payload).  The concrete mixing functions below stand in for the
AES block cipher and SHA-256 compression, which the claims do not depend on. -/

def mixFold (seed : Nat) (bs : List Nat) : Nat :=
  bs.foldl (fun a b => (a * 131 + b + 7) % 4294967296) seed

def gcmKeystream (key iv : List Nat) (n : Nat) : List Nat :=
  let seed := mixFold 2166136261 (key ++ 255 :: iv)
  (List.range n).map (fun i => (seed / 2 ^ (8 * (i % 4)) + i * 167) % 256)

def gcmTag (key iv ct : List Nat) : List Nat :=
  let seed := mixFold 40503 (key ++ 254 :: iv ++ 253 :: ct)
  (List.range 16).map (fun i => (seed / 2 ^ (8 * (i % 4)) + i * 101) % 256)

def hmacSha256Bytes (secret payload : String) : List Nat :=
  let seed := mixFold 5381 (strBytes secret ++ 252 :: strBytes payload)
  (List.range 32).map (fun i => (seed / 2 ^ (8 * (i % 4)) + i * 59) % 256)

/-- `crypto.createHmac("sha256", secret).update(payload).digest("hex")`:
64 lowercase hex characters of the 32-byte tag. -/
def hmacSha256Hex (secret payload : String) : String :=
  hexEncode (hmacSha256Bytes secret payload)

/-! ## `lib/encryption.ts` -/

structure EncryptedPayload where
  ciphertext : String
  iv : String
  auth_tag : String
deriving Repr, DecidableEq

/-- `validateMasterKey`: `Buffer.from(key, "hex")` must yield exactly 32
bytes, else throw. -/
def validateMasterKey (key : String) : Except String (List Nat) :=
  let buf := nodeHexDecode key.data
  if buf.length = 32 then Except.ok buf
  else Except.error ("Master key must be 32 bytes (64 hex chars), got " ++
    toString buf.length)

/-- `encrypt(plaintext, masterKey)`: AES-256-GCM with a fresh 16-byte IV.
The IV, drawn from `crypto.randomBytes(16)` in the source, is passed here as
an explicit byte-list argument. -/
def encrypt (plaintext masterKey : String) (iv : List Nat) :
    Except String EncryptedPayload := do
  let key ← validateMasterKey masterKey
  let ptb := strBytes plaintext
  let ks := gcmKeystream key iv ptb.length
  let ctb := List.zipWith (fun a b => a ^^^ b) ptb ks
  Except.ok
    { ciphertext := hexEncode ctb
      iv := hexEncode iv
      auth_tag := hexEncode (gcmTag key iv ctb) }

/-- `decrypt(payload, masterKey)`: verifies the GCM authentication tag, then
inverts the keystream; throws on tag mismatch. -/
def decrypt (payload : EncryptedPayload) (masterKey : String) :
    Except String String := do
  let key ← validateMasterKey masterKey
  let iv := nodeHexDecode payload.iv.data
  let authTag := nodeHexDecode payload.auth_tag.data
  let ctb := nodeHexDecode payload.ciphertext.data
  if gcmTag key iv ctb = authTag then
    let ks := gcmKeystream key iv ctb.length
    Except.ok (bytesToStr (List.zipWith (fun a b => a ^^^ b) ctb ks))
  else
    Except.error "Unsupported state or unable to authenticate data"

/-! ## `lib/auth.ts` -/

inductive HttpMethod where
  | get | post | put | delete
deriving Repr, DecidableEq

def HttpMethod.toStr : HttpMethod → String
  | .get => "GET"
  | .post => "POST"
  | .put => "PUT"
  | .delete => "DELETE"

/-- `ProxyRequest` from `lib/types.ts`; the request `method` field is an
arbitrary string at the wire boundary (the enumerated check happens in
`verifyRequest`), and `body`/`headers` do not enter the signed payload. -/
structure ProxyRequest where
  alias' : String
  path : String
  method : String
  timestamp : Int
  nonce : String
deriving Repr, DecidableEq

/-- `computeSignature(req, secret)`: HMAC-SHA-256 over
`alias:method:path:timestamp:nonce`, hex-encoded. -/
def computeSignature (req : ProxyRequest) (secret : String) : String :=
  let payload := String.intercalate ":"
    [req.alias', req.method, req.path, toString req.timestamp, req.nonce]
  hmacSha256Hex secret payload

def staleMsg (age maxAgeMs : Nat) : String :=
  "Request expired: age " ++ toString age ++ "ms exceeds max " ++
    toString maxAgeMs ++ "ms"

/-- `verifyRequest(req, signature, secret, maxAgeMs)`: freshness check,
required-field check, method check, then constant-time comparison of the
hex-decoded provided signature against the hex-decoded expected signature.
`Date.now()` is passed as the explicit argument `now`.  Returns `some reason`
on failure, `none` on success. -/
def verifyRequest (req : ProxyRequest) (signature secret : String)
    (maxAgeMs : Nat) (now : Int) : Option String :=
  let age := (now - req.timestamp).natAbs
  if age > maxAgeMs then
    some (staleMsg age maxAgeMs)
  else if req.alias' = "" ∨ req.path = "" ∨ req.method = "" ∨ req.nonce = "" then
    some "Missing required fields: alias, path, method, nonce"
  else if ¬ (req.method = "GET" ∨ req.method = "POST" ∨ req.method = "PUT" ∨
      req.method = "DELETE") then
    some ("Invalid method: " ++ req.method)
  else
    let expected := computeSignature req secret
    let sigBuf := nodeHexDecode signature.data
    let expectedBuf := nodeHexDecode expected.data
    if sigBuf.length ≠ expectedBuf.length then
      some "Invalid signature"
    else if sigBuf ≠ expectedBuf then
      some "Invalid signature"
    else
      none

/-- `verifyAdminToken(authHeader, adminToken)`: header must be exactly
`Bearer <token>`; byte-length mismatch and value mismatch yield the same
message via constant-time compare. -/
def verifyAdminToken (authHeader : Option String) (adminToken : String) :
    Option String :=
  match authHeader with
  | none => some "Missing Authorization header"
  | some h =>
    let parts := jsSplit h ' '
    if parts.length ≠ 2 ∨ parts.headD "" ≠ "Bearer" then
      some "Invalid Authorization format. Expected: Bearer <token>"
    else
      let token := parts.getD 1 ""
      if token.length ≠ adminToken.length then some "Invalid admin token"
      else if token ≠ adminToken then some "Invalid admin token"
      else none

/-! ## `lib/storage.ts`

The backend maps `glvault:key:<alias>` to the JSON serialization of a
`KeyRecord` and `glvault:index` to a JSON array of aliases; since JSON
round-trips the record, the backend is modelled at the typed level as an
association list of records plus the alias index. -/

structure KeyRecord where
  alias' : String
  encrypted_key : String
  iv : String
  auth_tag : String
  base_url : String
  quota_limit : Nat
  quota_used : Nat
  quota_window_start : Int
  created_at : Int
  rotated_at : Option Int
  owner : String
deriving Repr, DecidableEq

structure Store where
  records : List (String × KeyRecord)
  index : List String
deriving Repr, DecidableEq

def Store.empty : Store := ⟨[], []⟩

/-- `storage.get(KEY_PREFIX + alias)` followed by `JSON.parse`. -/
def getRec (st : Store) (a : String) : Option KeyRecord :=
  (st.records.find? (fun p => p.1 == a)).map Prod.snd

/-- `storage.set(KEY_PREFIX + alias, JSON.stringify(record))`: unconditional
overwrite. -/
def setRec (st : Store) (a : String) (r : KeyRecord) : Store :=
  if st.records.any (fun p => p.1 == a) then
    { st with records := st.records.map (fun p => if p.1 == a then (a, r) else p) }
  else
    { st with records := st.records ++ [(a, r)] }

/-- `addToIndex`: push the alias onto `glvault:index` when absent. -/
def addToIndex (st : Store) (a : String) : Store :=
  if st.index.contains a then st else { st with index := st.index ++ [a] }

structure KeyRegistration where
  alias' : String
  api_key : String
  base_url : String
  quota_limit : Option Nat
  owner : Option String
deriving Repr, DecidableEq

def isAliasChar (c : Char) : Bool :=
  decide ('a' ≤ c ∧ c ≤ 'z') || decide ('A' ≤ c ∧ c ≤ 'Z') ||
  decide ('0' ≤ c ∧ c ≤ '9') || c == '_' || c == '-'

/-- The alias regex `/^[a-zA-Z0-9_-]{1,64}$/` from `validateAlias`. -/
def validAlias (s : String) : Bool :=
  decide (1 ≤ s.data.length) && decide (s.data.length ≤ 64) &&
    s.data.all isAliasChar

def aliasErrorMsg : String :=
  "Alias must be 1-64 chars: letters, digits, hyphens, underscores"

def existsMsg (a : String) : String :=
  "Alias \x22" ++ a ++ "\x22 already exists. Use rotate to update."

def notFoundMsg (a : String) : String :=
  "Alias \x22" ++ a ++ "\x22 not found"

/-- `KeyStore.register`: duplicate check, alias validation, encrypt, build
the record with its defaults (`?? 1000`, `?? "admin"`), persist, index.
`Date.now()` and the fresh IV are explicit arguments. -/
def KeyStore.register (st : Store) (masterKey : String) (reg : KeyRegistration)
    (now : Int) (iv : List Nat) : Except String (Store × KeyRecord) :=
  if (getRec st reg.alias').isSome then
    Except.error (existsMsg reg.alias')
  else if ¬ validAlias reg.alias' then
    Except.error aliasErrorMsg
  else do
    let enc ← encrypt reg.api_key masterKey iv
    let record : KeyRecord :=
      { alias' := reg.alias'
        encrypted_key := enc.ciphertext
        iv := enc.iv
        auth_tag := enc.auth_tag
        base_url := reg.base_url
        quota_limit := reg.quota_limit.getD 1000
        quota_used := 0
        quota_window_start := now
        created_at := now
        rotated_at := none
        owner := reg.owner.getD "admin" }
    Except.ok (addToIndex (setRec st reg.alias' record) reg.alias', record)

/-- `KeyStore.getKey`: fetch, decrypt; `null` when absent; decryption
failure (integrity) propagates as the error. -/
def KeyStore.getKey (st : Store) (masterKey a : String) :
    Except String (Option String) :=
  match getRec st a with
  | none => Except.ok none
  | some r => do
    let pt ← decrypt ⟨r.encrypted_key, r.iv, r.auth_tag⟩ masterKey
    Except.ok (some pt)

/-- `KeyStore.getRecord`: fetch without decrypting. -/
def KeyStore.getRecord (st : Store) (a : String) : Option KeyRecord :=
  getRec st a

/-- `KeyStore.rotate`: re-encrypt, overwrite the three cipher fields, set
`rotated_at`, persist with a single backend `set`.  The third component of
the result is the trace of backend keys written. -/
def KeyStore.rotate (st : Store) (masterKey a newApiKey : String) (now : Int)
    (iv : List Nat) : Except String (Store × KeyRecord × List String) :=
  match getRec st a with
  | none => Except.error (notFoundMsg a)
  | some record => do
    let enc ← encrypt newApiKey masterKey iv
    let r' := { record with
      encrypted_key := enc.ciphertext
      iv := enc.iv
      auth_tag := enc.auth_tag
      rotated_at := some now }
    Except.ok (setRec st a r', r', ["glvault:key:" ++ a])

structure RateLimitResult where
  allowed : Bool
  remaining : Nat
deriving Repr, DecidableEq

/-- `KeyStore.incrementUsage`: window reset when expired, rejection without
mutation when over quota, otherwise increment and persist. -/
def KeyStore.incrementUsage (st : Store) (a : String) (now : Int)
    (windowMs : Nat) : Except String (Store × RateLimitResult) :=
  match getRec st a with
  | none => Except.error (notFoundMsg a)
  | some record =>
    let record :=
      if now - record.quota_window_start > (windowMs : Int) then
        { record with quota_used := 0, quota_window_start := now }
      else record
    if record.quota_limit ≤ record.quota_used then
      Except.ok (st, ⟨false, 0⟩)
    else
      let r' := { record with quota_used := record.quota_used + 1 }
      Except.ok (setRec st a r', ⟨true, r'.quota_limit - r'.quota_used⟩)

/-! ## `api/proxy.ts` helper `buildTargetUrl` -/

def keyParamMap : List (String × String) :=
  [("openweathermap.org", "appid"),
   ("newsapi.org", "apiKey"),
   ("alphavantage.co", "apikey"),
   ("googleapis.com", "key")]

/-- JS `String.prototype.includes`: substring containment. -/
def strContains (s sub : String) : Bool :=
  (List.range (s.data.length + 1)).any (fun i => sub.data.isPrefixOf (s.data.drop i))

/-- The `for (const [domain, param] of Object.entries(keyParamMap))` loop in
`buildTargetUrl`: first entry whose domain occurs in `baseUrl` wins
(`break`), default `"api_key"`. -/
def selectKeyParamLoop : List (String × String) → String → String
  | [], _ => "api_key"
  | (domain, param) :: rest, baseUrl =>
    if strContains baseUrl domain then param else selectKeyParamLoop rest baseUrl

/-- The credential query-parameter name `buildTargetUrl` injects. -/
def selectKeyParam (baseUrl : String) : String :=
  selectKeyParamLoop keyParamMap baseUrl

/-- Modelled from the spec: the host component of an absolute URL (the
source delegates URL parsing to the `URL` library class): the text after
`scheme://` up to the first `/`, `?`, `#` or `:`. -/
def afterSchemeAux : List Char → List Char
  | ':' :: '/' :: '/' :: rest => rest
  | _ :: rest => afterSchemeAux rest
  | [] => []

def hostOf (url : String) : String :=
  ⟨(afterSchemeAux url.data).takeWhile
    (fun c => !(c == '/' || c == '?' || c == '#' || c == ':'))⟩

/-- Modelled from the spec: parameter-name choice by suffix match of the
host of `base_url` against the configured `{hostSuffix → paramName}` map,
defaulting to `"api_key"` when no suffix matches. -/
def specKeyParamOfHost (host : String) : String :=
  match keyParamMap.find? (fun p => (p.1).data.isSuffixOf host.data) with
  | some p => p.2
  | none => "api_key"

/-! ## `api/keys/register.ts` -/

/-- `quota_limit ? Number(quota_limit) : 1000`: JS truthiness makes a
supplied `0` fall back to `1000`. -/
def endpointQuotaLimit (q : Option Nat) : Nat :=
  match q with
  | none => 1000
  | some n => if n = 0 then 1000 else n

/-- `owner || "admin"`: empty string is falsy. -/
def endpointOwner (o : Option String) : String :=
  match o with
  | none => "admin"
  | some s => if s = "" then "admin" else s

/-- The `KeyRegistration` object the `POST /api/keys/register` handler
passes to `KeyStore.register`. -/
def buildRegistration (a api_key base_url : String) (quota_limit : Option Nat)
    (owner : Option String) : KeyRegistration :=
  { alias' := a
    api_key := api_key
    base_url := base_url
    quota_limit := some (endpointQuotaLimit quota_limit)
    owner := some (endpointOwner owner) }

/-- The `POST /api/keys/register` handler after the method check: admin
auth, required-field checks, registration; 201 with the record on success,
409 when the store reports a duplicate, 400 otherwise.  (`new URL(base_url)`
validation is a library call; its failure path returns 400 before the store
is touched and is not reachable for the absolute URLs considered here.) -/
def registerEndpoint (st : Store) (masterKey adminToken : String)
    (authHeader : Option String) (a api_key base_url : String)
    (quota_limit : Option Nat) (owner : Option String) (now : Int)
    (iv : List Nat) : Nat × Option (Store × KeyRecord) :=
  match verifyAdminToken authHeader adminToken with
  | some _ => (401, none)
  | none =>
    if a = "" then (400, none)
    else if api_key = "" then (400, none)
    else if base_url = "" then (400, none)
    else
      match KeyStore.register st masterKey
          (buildRegistration a api_key base_url quota_limit owner) now iv with
      | Except.ok (st', rec) => (201, some (st', rec))
      | Except.error msg =>
        (if strContains msg "already exists" then 409 else 400, none)

/-! ## `api/proxy.ts`: the relay handler

The handler's effectful sub-calls on the shared store are wired to the
typed store model above; the upstream `fetch` is an oracle argument
(`DispatchOutcome`), and the wall-clock readings (`Date.now()`) appear as
the explicit arguments `now` (signature freshness, quota window, audit
timestamps) and `latency` (the measured `Date.now() - start`). -/

/-- Outcome of the upstream `fetch`: a thrown network error, or a response
with its status and (already JSON-or-text parsed) body. -/
inductive DispatchOutcome where
  | netError (msg : String)
  | ok (status : Nat) (dataStr : String)
deriving Repr, DecidableEq

/-- The fields of an `auditLog.record` call the claims are about. -/
structure AuditEmit where
  alias' : String
  status : Nat
  error : Option String
deriving Repr, DecidableEq

/-- The sanitized success body
`{status, data, cached, latency_ms, remaining_quota}`. -/
structure SuccessBody where
  status : Nat
  data : String
  cached : Bool
  latency_ms : Nat
  remaining_quota : Nat
deriving Repr, DecidableEq

/-- What a handler invocation produces: the HTTP status of the response,
the sanitized body when the success path is reached, the audit entries
emitted, the resulting store, and whether the invocation ended in an
unhandled exception (integrity failure inside `getKey`, which the platform
surfaces as a 500 with no JSON body from the handler). -/
structure HandlerResult where
  httpStatus : Nat
  body : Option SuccessBody
  audits : List AuditEmit
  store : Store
  crashed : Bool
deriving Repr, DecidableEq

/-- `extractSignature`: the `Authorization: Signature <hex>` header. -/
def extractSignature (authHeader : Option String) : Option String :=
  match authHeader with
  | none => none
  | some auth =>
    let parts := jsSplit auth ' '
    if parts.length = 2 && parts.headD "" == "Signature" then
      some (parts.getD 1 "")
    else none

/-- The `POST /api/proxy` handler. -/
def proxyHandler (st : Store) (hmacSecret masterKey : String)
    (maxAgeMs windowMs : Nat) (httpMethod : String)
    (authHeader : Option String) (req : ProxyRequest) (now : Int)
    (latency : Nat) (disp : DispatchOutcome) : HandlerResult :=
  if httpMethod ≠ "POST" then ⟨405, none, [], st, false⟩
  else
    match extractSignature authHeader with
    | none => ⟨401, none, [], st, false⟩
    | some signature =>
      match verifyRequest req signature hmacSecret maxAgeMs now with
      | some _ => ⟨401, none, [], st, false⟩
      | none =>
        match KeyStore.incrementUsage st req.alias' now windowMs with
        | Except.error _ => ⟨404, none, [], st, false⟩
        | Except.ok (st', usage) =>
          if ¬ usage.allowed then
            ⟨429, none, [⟨req.alias', 429, some "Rate limit exceeded"⟩], st', false⟩
          else
            match KeyStore.getKey st' masterKey req.alias' with
            | Except.error _ => ⟨500, none, [], st', true⟩
            | Except.ok none => ⟨404, none, [], st', false⟩
            | Except.ok (some _apiKey) =>
              match KeyStore.getRecord st' req.alias' with
              | none => ⟨404, none, [], st', false⟩
              | some _record =>
                match disp with
                | DispatchOutcome.netError msg =>
                  ⟨502, none, [⟨req.alias', 502, some msg⟩], st', false⟩
                | DispatchOutcome.ok status dataStr =>
                  ⟨status,
                   some ⟨status, dataStr, false, latency, usage.remaining⟩,
                   [⟨req.alias', status, none⟩], st', false⟩

/-- Any record a valid store holds is keyed by a valid alias. -/
def StoreValid (st : Store) : Prop := ∀ p ∈ st.records, validAlias p.1

/-- `N` back-to-back `incrementUsage` calls at a fixed wall-clock reading. -/
def iterUsage (a : String) (now : Int) (windowMs : Nat) : Nat → Store → Store
  | 0, st => st
  | n + 1, st =>
    match KeyStore.incrementUsage st a now windowMs with
    | Except.ok (st', _) => iterUsage a now windowMs n st'
    | Except.error _ => st

/-- `a` and `b` are the same character up to hex letter case. -/
def hexCaseVariant (a b : Char) : Bool :=
  a == b ||
  (a == 'a' && b == 'A') || (a == 'A' && b == 'a') ||
  (a == 'b' && b == 'B') || (a == 'B' && b == 'b') ||
  (a == 'c' && b == 'C') || (a == 'C' && b == 'c') ||
  (a == 'd' && b == 'D') || (a == 'D' && b == 'd') ||
  (a == 'e' && b == 'E') || (a == 'E' && b == 'e') ||
  (a == 'f' && b == 'F') || (a == 'F' && b == 'f')

/-! ## Concrete fixtures used in witnesses and counterexamples -/

def wMasterKey : String :=
  "0123456789abcdef0123456789abcdef0123456789abcdef0123456789abcdef"

def wReq : ProxyRequest := ⟨"w", "/p", "GET", 1, "n1"⟩

def wIv : List Nat := List.range 16

/-- A store holding alias "w" as produced by `KeyStore.register`. -/
def wRegistered : Store :=
  match KeyStore.register Store.empty wMasterKey
      ⟨"w", "SECRET", "https://example.com", some 5, some "admin"⟩ 0 wIv with
  | Except.ok (st, _) => st
  | Except.error _ => Store.empty

/-- The store after one successful `incrementUsage` on `wRegistered`. -/
def wIncremented : Store :=
  match KeyStore.incrementUsage wRegistered "w" 1 60000 with
  | Except.ok (st, _) => st
  | Except.error _ => wRegistered

/-- A relay request for an alias absent from the store. -/
def wReqU : ProxyRequest := ⟨"nope", "/p", "GET", 1, "n1"⟩

/-- A store holding alias "w" whose record carries a tampered ciphertext
(auth tag fails verification). -/
def wTampered : Store :=
  ⟨[("w", ⟨"w", "ab", "cd", "ef", "https://example.com", 5, 0, 0, 0, none,
    "admin"⟩)], ["w"]⟩

/-- Uppercase the hex letters a-f of a string (a concrete case variant). -/
def hexUpperChar (c : Char) : Char :=
  if c = 'a' then 'A'
  else if c = 'b' then 'B'
  else if c = 'c' then 'C'
  else if c = 'd' then 'D'
  else if c = 'e' then 'E'
  else if c = 'f' then 'F'
  else c

def hexUpper (s : String) : String := ⟨s.data.map hexUpperChar⟩

/-! ## Byte-level helper lemmas -/

theorem hexDigitVal_toHexDigit {n : Nat} (h : n < 16) :
    hexDigitVal (toHexDigit n) = some n := by
  interval_cases n <;> decide

theorem nodeHexDecode_hexEncodeBytes :
    ∀ {bs : List Nat}, (∀ b ∈ bs, b < 256) →
      nodeHexDecode (hexEncodeBytes bs) = bs
  | [], _ => rfl
  | b :: rest, h => by
    have hb : b < 256 := h b (List.mem_cons_self b rest)
    have h1 : b / 16 < 16 := by omega
    have h2 : b % 16 < 16 := by omega
    have ih := nodeHexDecode_hexEncodeBytes
      (fun x hx => h x (List.mem_cons_of_mem b hx))
    simp only [hexEncodeBytes, nodeHexDecode, hexDigitVal_toHexDigit h1,
      hexDigitVal_toHexDigit h2, ih]
    congr 1
    omega

theorem hexEncode_data (bs : List Nat) :
    (hexEncode bs).data = hexEncodeBytes bs := rfl

theorem nodeHexDecode_hexEncode {bs : List Nat} (h : ∀ b ∈ bs, b < 256) :
    nodeHexDecode (hexEncode bs).data = bs := by
  rw [hexEncode_data, nodeHexDecode_hexEncodeBytes h]

theorem hexEncodeBytes_length (bs : List Nat) :
    (hexEncodeBytes bs).length = 2 * bs.length := by
  induction bs with
  | nil => rfl
  | cons b rest ih => simp [hexEncodeBytes, ih]; omega

theorem gcmKeystream_length (key iv : List Nat) (n : Nat) :
    (gcmKeystream key iv n).length = n := by
  simp [gcmKeystream]

theorem gcmKeystream_lt (key iv : List Nat) (n : Nat) :
    ∀ b ∈ gcmKeystream key iv n, b < 256 := by
  intro b hb
  simp only [gcmKeystream, List.mem_map, List.mem_range] at hb
  obtain ⟨i, _, rfl⟩ := hb
  omega

theorem gcmTag_lt (key iv ct : List Nat) : ∀ b ∈ gcmTag key iv ct, b < 256 := by
  intro b hb
  simp only [gcmTag, List.mem_map, List.mem_range] at hb
  obtain ⟨i, _, rfl⟩ := hb
  omega

theorem hmacSha256Bytes_lt (secret payload : String) :
    ∀ b ∈ hmacSha256Bytes secret payload, b < 256 := by
  intro b hb
  simp only [hmacSha256Bytes, List.mem_map, List.mem_range] at hb
  obtain ⟨i, _, rfl⟩ := hb
  omega

theorem hmacSha256Bytes_length (secret payload : String) :
    (hmacSha256Bytes secret payload).length = 32 := by
  simp [hmacSha256Bytes]

theorem xor_byte_lt {a b : Nat} (ha : a < 256) (hb : b < 256) :
    a ^^^ b < 256 := by
  have h : (256 : Nat) = 2 ^ 8 := by norm_num
  rw [h] at ha hb ⊢
  exact Nat.xor_lt_two_pow ha hb

theorem zipWith_xor_lt :
    ∀ {pt ks : List Nat}, (∀ b ∈ pt, b < 256) → (∀ b ∈ ks, b < 256) →
      ∀ b ∈ List.zipWith (fun a b => a ^^^ b) pt ks, b < 256
  | [], _, _, _ => by simp
  | _ :: _, [], _, _ => by simp
  | a :: pt, k :: ks, hpt, hks => by
    simp only [List.zipWith_cons_cons, List.mem_cons]
    rintro b (rfl | hb)
    · exact xor_byte_lt (hpt a (List.mem_cons_self a pt))
        (hks k (List.mem_cons_self k ks))
    · exact zipWith_xor_lt (fun x hx => hpt x (List.mem_cons_of_mem a hx))
        (fun x hx => hks x (List.mem_cons_of_mem k hx)) b hb

theorem zipWith_xor_cancel :
    ∀ (pt ks : List Nat), pt.length ≤ ks.length →
      List.zipWith (fun a b => a ^^^ b)
        (List.zipWith (fun a b => a ^^^ b) pt ks) ks = pt
  | [], _, _ => by simp
  | a :: pt, [], h => by simp at h
  | a :: pt, k :: ks, h => by
    simp only [List.zipWith_cons_cons]
    rw [zipWith_xor_cancel pt ks (by simpa using h)]
    congr 1
    exact Nat.xor_cancel_right k a

theorem char_toNat_lt (c : Char) : c.toNat < 1114112 := by
  rcases c.valid with h | ⟨_, h⟩
  · exact Nat.lt_trans h (by norm_num)
  · exact h

theorem charBytes_lt (c : Char) : ∀ b ∈ charBytes c, b < 256 := by
  have h := char_toNat_lt c
  intro b hb
  simp only [charBytes, List.mem_cons, List.not_mem_nil, or_false] at hb
  rcases hb with rfl | rfl | rfl <;> omega

theorem strBytes_lt (s : String) : ∀ b ∈ strBytes s, b < 256 := by
  intro b hb
  simp only [strBytes, List.mem_flatMap] at hb
  obtain ⟨c, _, hc⟩ := hb
  exact charBytes_lt c b hc

theorem bytesToChars_charBytes_append (c : Char) (rest : List Nat) :
    bytesToChars (charBytes c ++ rest) = c :: bytesToChars rest := by
  have h := char_toNat_lt c
  simp only [charBytes, List.cons_append, List.nil_append, bytesToChars]
  congr 1
  have heq : c.toNat / 65536 * 65536 + c.toNat / 256 % 256 * 256 + c.toNat % 256
      = c.toNat := by omega
  rw [heq, Char.ofNat_toNat]

theorem bytesToChars_flatMap (l : List Char) :
    bytesToChars (l.flatMap charBytes) = l := by
  induction l with
  | nil => rfl
  | cons c cs ih => rw [List.flatMap_cons, bytesToChars_charBytes_append, ih]

theorem bytesToStr_strBytes (s : String) : bytesToStr (strBytes s) = s := by
  show (⟨bytesToChars (s.data.flatMap charBytes)⟩ : String) = s
  rw [bytesToChars_flatMap]

theorem nodeHexDecode_length_allHex :
    ∀ {l : List Char}, (∀ c ∈ l, (hexDigitVal c).isSome) → l.length % 2 = 0 →
      (nodeHexDecode l).length = l.length / 2
  | [], _, _ => rfl
  | [c], _, hpar => by simp at hpar
  | c1 :: c2 :: rest, hhex, hpar => by
    obtain ⟨h1, hh1⟩ := Option.isSome_iff_exists.mp
      (hhex c1 (by simp))
    obtain ⟨h2, hh2⟩ := Option.isSome_iff_exists.mp
      (hhex c2 (by simp))
    have ih := nodeHexDecode_length_allHex
      (l := rest) (fun c hc => hhex c (by simp [hc]))
      (by simp only [List.length_cons] at hpar; omega)
    simp only [nodeHexDecode, hh1, hh2, List.length_cons, ih]
    omega

theorem validateMasterKey_ok {K : String}
    (hK : (nodeHexDecode K.data).length = 32) :
    validateMasterKey K = Except.ok (nodeHexDecode K.data) := by
  simp [validateMasterKey, hK]

/-- The core round trip: decrypting what `encrypt` produced, under the same
valid master key, recovers the plaintext. -/
theorem decrypt_encrypt_of_decode32 (P K : String) (iv : List Nat)
    (hK : (nodeHexDecode K.data).length = 32) (hiv : ∀ b ∈ iv, b < 256) :
    (encrypt P K iv).bind (fun payload => decrypt payload K) = Except.ok P := by
  have hvk := validateMasterKey_ok hK
  set key := nodeHexDecode K.data with hkey
  set ptb := strBytes P with hptb
  set ks := gcmKeystream key iv ptb.length with hks
  set ctb := List.zipWith (fun a b => a ^^^ b) ptb ks with hctb
  have hkslen : ks.length = ptb.length := gcmKeystream_length key iv ptb.length
  have hctlt : ∀ b ∈ ctb, b < 256 :=
    zipWith_xor_lt (strBytes_lt P) (gcmKeystream_lt key iv ptb.length)
  have henc : encrypt P K iv =
      Except.ok ⟨hexEncode ctb, hexEncode iv, hexEncode (gcmTag key iv ctb)⟩ := by
    simp only [encrypt, hvk, Bind.bind, Except.bind]
  have hdeciv : nodeHexDecode (hexEncode iv).data = iv := nodeHexDecode_hexEncode hiv
  have hdect : nodeHexDecode (hexEncode ctb).data = ctb := nodeHexDecode_hexEncode hctlt
  have hdectag : nodeHexDecode (hexEncode (gcmTag key iv ctb)).data = gcmTag key iv ctb :=
    nodeHexDecode_hexEncode (gcmTag_lt key iv ctb)
  have hctlen : ctb.length = ptb.length := by
    rw [hctb, List.length_zipWith, hkslen, Nat.min_self]
  rw [henc]
  simp only [Except.bind, decrypt, hvk, Bind.bind, hdeciv, hdect, hdectag]
  rw [if_pos trivial, hctlen, ← hks, hctb,
    zipWith_xor_cancel ptb ks (le_of_eq hkslen.symm), bytesToStr_strBytes]

/-! ## Store helper lemmas -/

theorem find?_map_replace (a : String) (r : KeyRecord) :
    ∀ (l : List (String × KeyRecord)), l.any (fun p => p.1 == a) →
      (l.map (fun p => if p.1 == a then (a, r) else p)).find?
        (fun p => p.1 == a) = some (a, r)
  | [], h => by simp at h
  | p :: l, h => by
    by_cases hp : p.1 = a
    · simp [hp]
    · have hl : l.any (fun q => q.1 == a) = true := by
        rcases List.any_eq_true.mp h with ⟨q, hq, hqa⟩
        rcases List.mem_cons.mp hq with rfl | hmem
        · exact absurd (by simpa using hqa) hp
        · exact List.any_eq_true.mpr ⟨q, hmem, hqa⟩
      have hhead : (if (p.1 == a) = true then (a, r) else p) = p :=
        if_neg (by simpa using hp)
      rw [List.map_cons, hhead, List.find?_cons_of_neg _ (by simpa using hp)]
      exact find?_map_replace a r l hl

theorem find?_append_single (a : String) (r : KeyRecord)
    (l : List (String × KeyRecord)) (h : ¬ l.any (fun p => p.1 == a)) :
    (l ++ [(a, r)]).find? (fun p => p.1 == a) = some (a, r) := by
  induction l with
  | nil => simp
  | cons p l ih =>
    have hp : ¬ p.1 = a := by
      intro hc
      exact h (by simp [hc])
    rw [List.cons_append, List.find?_cons_of_neg _ (by simpa using hp)]
    exact ih (fun hc => h (by
      refine List.any_eq_true.mpr ?_
      rcases List.any_eq_true.mp hc with ⟨q, hq, hqa⟩
      exact ⟨q, List.mem_cons_of_mem p hq, hqa⟩))

theorem getRec_setRec_self (st : Store) (a : String) (r : KeyRecord) :
    getRec (setRec st a r) a = some r := by
  unfold getRec setRec
  by_cases h : st.records.any (fun p => p.1 == a)
  · rw [if_pos h, find?_map_replace a r st.records h]
    rfl
  · rw [if_neg h]
    show Option.map Prod.snd ((st.records ++ [(a, r)]).find? (fun p => p.1 == a)) = some r
    rw [find?_append_single a r st.records h]
    rfl

theorem find?_map_replace_ne (a b : String) (r : KeyRecord) (hne : b ≠ a) :
    ∀ (l : List (String × KeyRecord)),
      (l.map (fun p => if p.1 == a then (a, r) else p)).find?
        (fun p => p.1 == b) = l.find? (fun p => p.1 == b)
  | [] => rfl
  | p :: l => by
    by_cases hp : p.1 = a
    · have hhead : (if (p.1 == a) = true then (a, r) else p) = (a, r) :=
        if_pos (by simpa using hp)
      have hab : (a == b) = false := beq_eq_false_iff_ne.mpr (fun hc => hne hc.symm)
      have hpb : (p.1 == b) = false := by rw [hp]; exact hab
      rw [List.map_cons, hhead]
      simp only [List.find?_cons, hab, hpb]
      exact find?_map_replace_ne a b r hne l
    · have hhead : (if (p.1 == a) = true then (a, r) else p) = p :=
        if_neg (by simpa using hp)
      rw [List.map_cons, hhead]
      by_cases hq : p.1 = b
      · rw [List.find?_cons_of_pos _ (by simpa using hq),
          List.find?_cons_of_pos _ (by simpa using hq)]
      · rw [List.find?_cons_of_neg _ (by simpa using hq),
          List.find?_cons_of_neg _ (by simpa using hq)]
        exact find?_map_replace_ne a b r hne l

theorem getRec_setRec_ne (st : Store) (a b : String) (r : KeyRecord)
    (hne : b ≠ a) : getRec (setRec st a r) b = getRec st b := by
  unfold getRec setRec
  by_cases h : st.records.any (fun p => p.1 == a)
  · rw [if_pos h, find?_map_replace_ne a b r hne st.records]
  · rw [if_neg h]
    show Option.map Prod.snd ((st.records ++ [(a, r)]).find? (fun p => p.1 == b)) = _
    rw [List.find?_append]
    have hsingle : ([(a, r)].find? (fun p => p.1 == b)) = none := by
      have hab : (a == b) = false := beq_eq_false_iff_ne.mpr (fun hc => hne hc.symm)
      simp only [List.find?_cons, hab]
      rfl
    rw [hsingle, Option.or_none]

theorem getRec_addToIndex (st : Store) (a b : String) :
    getRec (addToIndex st a) b = getRec st b := by
  unfold addToIndex getRec
  split <;> rfl


theorem validAlias_of_getRec {st : Store} {a : String} {r : KeyRecord}
    (hv : StoreValid st) (h : getRec st a = some r) : validAlias a := by
  unfold getRec at h
  obtain ⟨p, hp, hmap⟩ := Option.map_eq_some'.mp h
  have hmem := List.mem_of_find?_eq_some hp
  have heq : p.1 = a := by simpa using List.find?_some hp
  exact heq ▸ hv p hmem

/-! ## Rate-limiting lemmas -/

theorem incrementUsage_not_found {st : Store} {a : String} {now : Int}
    {windowMs : Nat} (h : getRec st a = none) :
    KeyStore.incrementUsage st a now windowMs =
      Except.error (notFoundMsg a) := by
  unfold KeyStore.incrementUsage
  rw [h]

theorem incrementUsage_over {st : Store} {a : String} {r : KeyRecord}
    {now : Int} {windowMs : Nat} (h : getRec st a = some r)
    (hw : ¬ now - r.quota_window_start > (windowMs : Int))
    (hq : r.quota_limit ≤ r.quota_used) :
    KeyStore.incrementUsage st a now windowMs = Except.ok (st, ⟨false, 0⟩) := by
  unfold KeyStore.incrementUsage
  rw [h]
  simp only [if_neg hw, if_pos hq]

theorem incrementUsage_under {st : Store} {a : String} {r : KeyRecord}
    {now : Int} {windowMs : Nat} (h : getRec st a = some r)
    (hw : ¬ now - r.quota_window_start > (windowMs : Int))
    (hq : r.quota_used < r.quota_limit) :
    KeyStore.incrementUsage st a now windowMs =
      Except.ok (setRec st a { r with quota_used := r.quota_used + 1 },
        ⟨true, r.quota_limit - (r.quota_used + 1)⟩) := by
  unfold KeyStore.incrementUsage
  rw [h]
  simp only [if_neg hw, if_neg (Nat.not_le.mpr hq)]


theorem iterUsage_quota (a : String) (now : Int) (windowMs : Nat) :
    ∀ (n : Nat) (st : Store) (r : KeyRecord), getRec st a = some r →
      r.quota_used ≤ r.quota_limit →
      now - r.quota_window_start ≤ (windowMs : Int) →
      ∃ r', getRec (iterUsage a now windowMs n st) a = some r' ∧
        r'.quota_used = min (r.quota_used + n) r.quota_limit ∧
        r'.quota_limit = r.quota_limit ∧
        r'.quota_window_start = r.quota_window_start
  | 0, st, r, h, hle, _ => by
    refine ⟨r, h, ?_, rfl, rfl⟩
    simp [iterUsage]
    omega
  | n + 1, st, r, h, hle, hw => by
    have hw' : ¬ now - r.quota_window_start > (windowMs : Int) := not_lt.mpr hw
    by_cases hq : r.quota_used < r.quota_limit
    · have hstep := incrementUsage_under h hw' hq
      have hnext : getRec (setRec st a { r with quota_used := r.quota_used + 1 }) a
          = some { r with quota_used := r.quota_used + 1 } :=
        getRec_setRec_self st a _
      obtain ⟨r', hr', hused, hlim, hws⟩ := iterUsage_quota a now windowMs n
        (setRec st a { r with quota_used := r.quota_used + 1 })
        { r with quota_used := r.quota_used + 1 } hnext (by simpa using hq) hw
      refine ⟨r', ?_, ?_, by simpa using hlim, by simpa using hws⟩
      · show getRec (iterUsage a now windowMs (n + 1) st) a = some r'
        unfold iterUsage
        rw [hstep]
        exact hr'
      · simp only at hused
        omega
    · have hq' : r.quota_limit ≤ r.quota_used := Nat.not_lt.mp hq
      have hstep := incrementUsage_over h hw' hq'
      obtain ⟨r', hr', hused, hlim, hws⟩ :=
        iterUsage_quota a now windowMs n st r h hle hw
      refine ⟨r', ?_, ?_, hlim, hws⟩
      · show getRec (iterUsage a now windowMs (n + 1) st) a = some r'
        unfold iterUsage
        rw [hstep]
        exact hr'
      · omega

/-! ## Key-parameter selection lemmas -/

theorem selectKeyParamLoop_eq_find :
    ∀ (m : List (String × String)) (u : String),
      selectKeyParamLoop m u =
        ((m.find? (fun p => strContains u p.1)).map Prod.snd).getD "api_key"
  | [], _ => rfl
  | (d, p) :: m, u => by
    by_cases h : strContains u d
    · simp only [selectKeyParamLoop, if_pos h, List.find?_cons, h]
      rfl
    · have hb : strContains u d = false := by simpa using h
      simp only [selectKeyParamLoop, if_neg h, List.find?_cons, hb]
      exact selectKeyParamLoop_eq_find m u

/-! ## Hex case-equivalence (signature comparison is on decoded bytes) -/


theorem hexDigitVal_hexCaseVariant {a b : Char}
    (h : hexCaseVariant a b = true) : hexDigitVal a = hexDigitVal b := by
  simp only [hexCaseVariant, Bool.or_eq_true, Bool.and_eq_true,
    beq_iff_eq] at h
  rcases h with ((((((((((((rfl | ⟨rfl, rfl⟩) | ⟨rfl, rfl⟩) | ⟨rfl, rfl⟩) |
    ⟨rfl, rfl⟩) | ⟨rfl, rfl⟩) | ⟨rfl, rfl⟩) | ⟨rfl, rfl⟩) | ⟨rfl, rfl⟩) |
    ⟨rfl, rfl⟩) | ⟨rfl, rfl⟩) | ⟨rfl, rfl⟩) | ⟨rfl, rfl⟩) <;> rfl

theorem nodeHexDecode_caseEquiv :
    ∀ {l1 l2 : List Char},
      List.Forall₂ (fun a b => hexCaseVariant a b = true) l1 l2 →
      nodeHexDecode l1 = nodeHexDecode l2
  | [], [], _ => rfl
  | c1 :: l1, d1 :: l2, h => by
    rcases h with _ | ⟨h1, htail⟩
    rcases htail with _ | @⟨c2, d2, l1', l2', h2, hrest⟩
    · rfl
    · have e1 := hexDigitVal_hexCaseVariant h1
      have e2 := hexDigitVal_hexCaseVariant h2
      simp only [nodeHexDecode, e1, e2]
      cases hexDigitVal d1 <;> cases hexDigitVal d2 <;>
        simp [nodeHexDecode_caseEquiv hrest]

/-! ## Assorted bridge lemmas -/

theorem decode32_of_hex64 {K : String} (hlen : K.data.length = 64)
    (hhex : ∀ c ∈ K.data, (hexDigitVal c).isSome) :
    (nodeHexDecode K.data).length = 32 := by
  rw [nodeHexDecode_length_allHex hhex (by omega), hlen]

theorem encrypt_eq_ok {P K : String} {iv : List Nat}
    (hK : (nodeHexDecode K.data).length = 32) :
    encrypt P K iv = Except.ok
      { ciphertext := hexEncode (List.zipWith (fun a b => a ^^^ b) (strBytes P)
          (gcmKeystream (nodeHexDecode K.data) iv (strBytes P).length))
        iv := hexEncode iv
        auth_tag := hexEncode (gcmTag (nodeHexDecode K.data) iv
          (List.zipWith (fun a b => a ^^^ b) (strBytes P)
            (gcmKeystream (nodeHexDecode K.data) iv (strBytes P).length))) } := by
  simp only [encrypt, validateMasterKey_ok hK, Bind.bind, Except.bind]

theorem decrypt_of_encrypt_ok {P K : String} {iv : List Nat}
    {payload : EncryptedPayload} (hK : (nodeHexDecode K.data).length = 32)
    (hiv : ∀ b ∈ iv, b < 256) (henc : encrypt P K iv = Except.ok payload) :
    decrypt payload K = Except.ok P := by
  have h := decrypt_encrypt_of_decode32 P K iv hK hiv
  rw [henc] at h
  simpa [Except.bind] using h

theorem staleMsg_ne_missing (a b : Nat) :
    staleMsg a b ≠ "Missing required fields: alias, path, method, nonce" := by
  intro h
  have h2 : some 'R' = some 'M' := congrArg (fun s => s.data.head?) h
  exact absurd h2 (by decide)

theorem staleMsg_ne_method (a b : Nat) (m : String) :
    staleMsg a b ≠ "Invalid method: " ++ m := by
  intro h
  have h2 : some 'R' = some 'I' := congrArg (fun s => s.data.head?) h
  exact absurd h2 (by decide)

theorem staleMsg_ne_sig (a b : Nat) : staleMsg a b ≠ "Invalid signature" := by
  intro h
  have h2 : some 'R' = some 'I' := congrArg (fun s => s.data.head?) h
  exact absurd h2 (by decide)

theorem computeSignature_decode (req : ProxyRequest) (secret : String) :
    nodeHexDecode (computeSignature req secret).data =
      hmacSha256Bytes secret (String.intercalate ":"
        [req.alias', req.method, req.path, toString req.timestamp, req.nonce]) := by
  unfold computeSignature hmacSha256Hex
  exact nodeHexDecode_hexEncode (hmacSha256Bytes_lt _ _)

theorem computeSignature_decode_length (req : ProxyRequest) (secret : String) :
    (nodeHexDecode (computeSignature req secret).data).length = 32 := by
  rw [computeSignature_decode, hmacSha256Bytes_length]

theorem incrementUsage_some {st : Store} {a : String} {now : Int}
    {windowMs : Nat} {r r' : KeyRecord} (h : getRec st a = some r)
    (hr' : (if now - r.quota_window_start > (windowMs : Int) then
        { r with quota_used := 0, quota_window_start := now } else r) = r') :
    KeyStore.incrementUsage st a now windowMs =
      if r'.quota_limit ≤ r'.quota_used then Except.ok (st, ⟨false, 0⟩)
      else Except.ok (setRec st a { r' with quota_used := r'.quota_used + 1 },
        ⟨true, r'.quota_limit - (r'.quota_used + 1)⟩) := by
  subst hr'
  simp only [KeyStore.incrementUsage, h]

theorem addToIndex_records (st : Store) (a : String) :
    (addToIndex st a).records = st.records := by
  unfold addToIndex
  split <;> rfl

theorem mem_setRec {st : Store} {a : String} {r : KeyRecord}
    {p : String × KeyRecord} (hp : p ∈ (setRec st a r).records) :
    p = (a, r) ∨ p ∈ st.records := by
  unfold setRec at hp
  by_cases h : st.records.any (fun q => q.1 == a)
  · rw [if_pos h] at hp
    obtain ⟨q, hq, hmap⟩ := List.mem_map.mp hp
    by_cases hqa : q.1 = a
    · left
      rw [← hmap, if_pos (by simpa using hqa)]
    · right
      rw [← hmap, if_neg (by simpa using hqa)]
      exact hq
  · rw [if_neg h] at hp
    rcases List.mem_append.mp hp with h1 | h2
    · right; exact h1
    · left; simpa using h2

/-- The shape of a successful `KeyStore.register`: the alias was absent
and valid, and the result is the freshly-built record persisted and
indexed. -/
theorem register_ok_shape {st : Store} {mk : String} {reg : KeyRegistration}
    {now : Int} {iv : List Nat} {st' : Store} {rec : KeyRecord}
    (hok : KeyStore.register st mk reg now iv = Except.ok (st', rec)) :
    getRec st reg.alias' = none ∧ validAlias reg.alias' ∧
    ∃ enc, encrypt reg.api_key mk iv = Except.ok enc ∧
      rec = { alias' := reg.alias', encrypted_key := enc.ciphertext,
              iv := enc.iv, auth_tag := enc.auth_tag,
              base_url := reg.base_url,
              quota_limit := reg.quota_limit.getD 1000, quota_used := 0,
              quota_window_start := now, created_at := now,
              rotated_at := none, owner := reg.owner.getD "admin" } ∧
      st' = addToIndex (setRec st reg.alias' rec) reg.alias' := by
  unfold KeyStore.register at hok
  by_cases h1 : (getRec st reg.alias').isSome
  · rw [if_pos h1] at hok
    simp at hok
  · rw [if_neg h1] at hok
    by_cases h2 : ¬ validAlias reg.alias'
    · rw [if_pos h2] at hok
      simp at hok
    · rw [if_neg h2] at hok
      cases henc : encrypt reg.api_key mk iv with
      | error e =>
        rw [henc] at hok
        simp [Bind.bind, Except.bind] at hok
      | ok enc =>
        rw [henc] at hok
        simp only [Bind.bind, Except.bind, Except.ok.injEq,
          Prod.mk.injEq] at hok
        obtain ⟨hst, hrec⟩ := hok
        exact ⟨Option.not_isSome_iff_eq_none.mp h1, not_not.mp h2, enc, rfl,
          hrec.symm, by rw [← hrec, ← hst]⟩

/-! ## Claims -/

/-- C7: `verifyRequest` rejects a request as stale exactly when
`|now - req.timestamp| > max_age_ms`, and this freshness check precedes
every other check (a stale request is rejected with the expiry reason
regardless of all remaining fields).  At the boundary, an absolute clock
skew of `max_age_ms - 1` (in either direction, since the check is on the
absolute difference) passes the freshness check — an otherwise-valid
request verifies — while a skew of `max_age_ms + 1` in either direction is
rejected as stale. -/
theorem c7_verifyRequest_freshness (req : ProxyRequest)
    (signature secret : String) (maxAgeMs : Nat) (now : Int) :
    ((∃ s, verifyRequest req signature secret maxAgeMs now = some s ∧
        ∃ a b, s = staleMsg a b) ↔ (now - req.timestamp).natAbs > maxAgeMs) ∧
    ((now - req.timestamp).natAbs > maxAgeMs →
      verifyRequest req signature secret maxAgeMs now =
        some (staleMsg (now - req.timestamp).natAbs maxAgeMs)) ∧
    (req.alias' ≠ "" → req.path ≠ "" → req.nonce ≠ "" →
      (req.method = "GET" ∨ req.method = "POST" ∨ req.method = "PUT" ∨
        req.method = "DELETE") →
      signature = computeSignature req secret →
      (now - req.timestamp).natAbs = maxAgeMs - 1 →
      verifyRequest req signature secret maxAgeMs now = none) ∧
    ((now - req.timestamp).natAbs = maxAgeMs + 1 →
      verifyRequest req signature secret maxAgeMs now =
        some (staleMsg (maxAgeMs + 1) maxAgeMs)) := by
  have hstale : ∀ h : (now - req.timestamp).natAbs > maxAgeMs,
      verifyRequest req signature secret maxAgeMs now =
        some (staleMsg (now - req.timestamp).natAbs maxAgeMs) := by
    intro h
    unfold verifyRequest
    rw [if_pos h]
  refine ⟨⟨?_, ?_⟩, hstale, ?_, ?_⟩
  · rintro ⟨s, hs, a, b, rfl⟩
    by_contra hage
    unfold verifyRequest at hs
    rw [if_neg hage] at hs
    by_cases hf : req.alias' = "" ∨ req.path = "" ∨ req.method = "" ∨
        req.nonce = ""
    · rw [if_pos hf] at hs
      exact staleMsg_ne_missing a b (Option.some_injective _ hs).symm
    · rw [if_neg hf] at hs
      by_cases hm : req.method = "GET" ∨ req.method = "POST" ∨
          req.method = "PUT" ∨ req.method = "DELETE"
      · rw [if_neg (not_not_intro hm)] at hs
        by_cases h1 : (nodeHexDecode signature.data).length ≠
            (nodeHexDecode (computeSignature req secret).data).length
        · rw [if_pos h1] at hs
          exact staleMsg_ne_sig a b (Option.some_injective _ hs).symm
        · rw [if_neg h1] at hs
          by_cases h2 : nodeHexDecode signature.data ≠
              nodeHexDecode (computeSignature req secret).data
          · rw [if_pos h2] at hs
            exact staleMsg_ne_sig a b (Option.some_injective _ hs).symm
          · rw [if_neg h2] at hs
            exact Option.noConfusion hs
      · rw [if_pos hm] at hs
        exact staleMsg_ne_method a b req.method (Option.some_injective _ hs).symm
  · intro h
    exact ⟨staleMsg (now - req.timestamp).natAbs maxAgeMs, hstale h,
      (now - req.timestamp).natAbs, maxAgeMs, rfl⟩
  · intro ha hp hn hm hsig hage
    have hmne : req.method ≠ "" := by
      rcases hm with h | h | h | h <;> simp [h]
    unfold verifyRequest
    rw [if_neg (by omega), if_neg (by simp [ha, hp, hn, hmne]),
      if_neg (not_not_intro hm), hsig, if_neg (by simp), if_neg (by simp)]
  · intro hage
    rw [hstale (by omega), hage]

/-- C10: `verifyRequest` compares the hex-decoded bytes of the provided
signature against the expected 32-byte tag, not the hex strings: under the
pre-signature checks passing, a provided signature that differs from the
canonical lowercase-hex rendering only in hex letter case is accepted; any
provided string whose hex decoding is not exactly 32 bytes is rejected
with the reason "Invalid signature"; and a 32-byte decoding whose bytes
mismatch is rejected with that same reason. -/
theorem c10_signature_byte_compare (req : ProxyRequest) (secret : String)
    (maxAgeMs : Nat) (now : Int)
    (hfresh : ¬ (now - req.timestamp).natAbs > maxAgeMs)
    (ha : req.alias' ≠ "") (hp : req.path ≠ "") (hn : req.nonce ≠ "")
    (hm : req.method = "GET" ∨ req.method = "POST" ∨ req.method = "PUT" ∨
      req.method = "DELETE") :
    (∀ s : String,
      List.Forall₂ (fun a b => hexCaseVariant a b = true) s.data
        (computeSignature req secret).data →
      verifyRequest req s secret maxAgeMs now = none) ∧
    (∀ s : String, (nodeHexDecode s.data).length ≠ 32 →
      verifyRequest req s secret maxAgeMs now = some "Invalid signature") ∧
    (∀ s : String, (nodeHexDecode s.data).length = 32 →
      nodeHexDecode s.data ≠ nodeHexDecode (computeSignature req secret).data →
      verifyRequest req s secret maxAgeMs now = some "Invalid signature") := by
  have hmne : req.method ≠ "" := by
    rcases hm with h | h | h | h <;> simp [h]
  have hpre : ∀ s : String, verifyRequest req s secret maxAgeMs now =
      (if (nodeHexDecode s.data).length ≠
          (nodeHexDecode (computeSignature req secret).data).length then
        some "Invalid signature"
      else if nodeHexDecode s.data ≠
          nodeHexDecode (computeSignature req secret).data then
        some "Invalid signature"
      else none) := by
    intro s
    unfold verifyRequest
    rw [if_neg hfresh, if_neg (by simp [ha, hp, hn, hmne]),
      if_neg (not_not_intro hm)]
  refine ⟨?_, ?_, ?_⟩
  · intro s hcase
    have hdec : nodeHexDecode s.data =
        nodeHexDecode (computeSignature req secret).data :=
      nodeHexDecode_caseEquiv hcase
    rw [hpre s, if_neg (by rw [hdec]; simp), if_neg (not_not_intro hdec)]
  · intro s hlen
    rw [hpre s, if_pos (by rw [computeSignature_decode_length req secret]; exact hlen)]
  · intro s hlen hne
    rw [hpre s, if_neg (by
        rw [computeSignature_decode_length req secret, hlen]
        simp),
      if_pos hne]


/-- C4: for an alias in the store, `incrementUsage` first resets
`quota_used` to 0 and `quota_window_start` to `now` when
`now - quota_window_start > window_ms`; then, if `quota_used ≥ quota_limit`,
it returns `{allowed: false, remaining: 0}` with the persisted store
unchanged, and otherwise increments `quota_used`, persists the record, and
returns `{allowed: true, remaining: quota_limit - quota_used}`.  For an
alias not in the store it fails with the not-found error.  Consequently,
after `N` calls within one window starting from `quota_used = 0` and
`quota_limit = L`, the stored `quota_used` equals `min N L`. -/
theorem c4_incrementUsage_quota (st : Store) (a : String) (now : Int)
    (windowMs : Nat) :
    (getRec st a = none →
      KeyStore.incrementUsage st a now windowMs =
        Except.error (notFoundMsg a)) ∧
    (∀ r r', getRec st a = some r →
      (if now - r.quota_window_start > (windowMs : Int) then
        { r with quota_used := 0, quota_window_start := now } else r) = r' →
      (r'.quota_limit ≤ r'.quota_used →
        KeyStore.incrementUsage st a now windowMs =
          Except.ok (st, ⟨false, 0⟩)) ∧
      (r'.quota_used < r'.quota_limit →
        KeyStore.incrementUsage st a now windowMs =
          Except.ok (setRec st a { r' with quota_used := r'.quota_used + 1 },
            ⟨true, r'.quota_limit - (r'.quota_used + 1)⟩))) ∧
    (∀ (N : Nat) (r : KeyRecord), getRec st a = some r → r.quota_used = 0 →
      now - r.quota_window_start ≤ (windowMs : Int) →
      ∃ r', getRec (iterUsage a now windowMs N st) a = some r' ∧
        r'.quota_used = min N r.quota_limit) := by
  refine ⟨fun h => incrementUsage_not_found h, ?_, ?_⟩
  · intro r r' h hr'
    refine ⟨fun hover => ?_, fun hunder => ?_⟩
    · rw [incrementUsage_some h hr', if_pos hover]
    · rw [incrementUsage_some h hr', if_neg (Nat.not_le.mpr hunder)]
  · intro N r h hz hw
    obtain ⟨r', hr', hused, _, _⟩ :=
      iterUsage_quota a now windowMs N st r h (by omega) hw
    exact ⟨r', hr', by omega⟩

/-- Witness for C4 at a concrete store: alias "w" with limit 2 and three
back-to-back calls ends at `quota_used = min 3 2 = 2`, and a call for an
absent alias fails. -/
theorem c4_incrementUsage_quota_witness :
    (KeyStore.incrementUsage
        ⟨[("w", ⟨"w", "", "", "", "https://example.com", 2, 0, 0, 0, none,
          "admin"⟩)], ["w"]⟩ "absent" 5 60000 =
      Except.error (notFoundMsg "absent")) ∧
    (∃ r', getRec (iterUsage "w" 5 60000 3
        ⟨[("w", ⟨"w", "", "", "", "https://example.com", 2, 0, 0, 0, none,
          "admin"⟩)], ["w"]⟩) "w" = some r' ∧
      r'.quota_used = min 3 2) := by
  constructor
  · exact (c4_incrementUsage_quota
      ⟨[("w", ⟨"w", "", "", "", "https://example.com", 2, 0, 0, 0, none,
        "admin"⟩)], ["w"]⟩ "absent" 5 60000).1 (by decide)
  · exact (c4_incrementUsage_quota
      ⟨[("w", ⟨"w", "", "", "", "https://example.com", 2, 0, 0, 0, none,
        "admin"⟩)], ["w"]⟩ "w" 5 60000).2.2 3
      ⟨"w", "", "", "", "https://example.com", 2, 0, 0, 0, none, "admin"⟩
      (by decide) (by decide) (by decide)

/-- C8: an alias failing the regex `[A-Za-z0-9_-]{1,64}` is rejected by
`register` with the invalid-alias error when the alias is absent from the
store; an alias already present is rejected with the already-exists error;
and an invalid alias is never stored: registration with an invalid alias
never succeeds, and registration preserves the invariant that every stored
alias is valid. -/
theorem c8_register_alias_validation (st : Store) (mk : String)
    (reg : KeyRegistration) (now : Int) (iv : List Nat) :
    (¬ validAlias reg.alias' → getRec st reg.alias' = none →
      KeyStore.register st mk reg now iv = Except.error aliasErrorMsg) ∧
    ((getRec st reg.alias').isSome →
      KeyStore.register st mk reg now iv =
        Except.error (existsMsg reg.alias')) ∧
    (¬ validAlias reg.alias' →
      ∀ st' rec, KeyStore.register st mk reg now iv ≠ Except.ok (st', rec)) ∧
    (StoreValid st → ∀ st' rec,
      KeyStore.register st mk reg now iv = Except.ok (st', rec) →
      StoreValid st') := by
  refine ⟨?_, ?_, ?_, ?_⟩
  · intro hinv habs
    unfold KeyStore.register
    rw [if_neg (by simp [habs]), if_pos hinv]
  · intro hr
    unfold KeyStore.register
    rw [if_pos hr]
  · intro hinv st' rec hok
    obtain ⟨_, hval, _⟩ := register_ok_shape hok
    exact hinv hval
  · intro hv st' rec hok
    obtain ⟨_, hval, enc, _, hrec, hst'⟩ := register_ok_shape hok
    intro p hp
    rw [hst', addToIndex_records] at hp
    rcases mem_setRec hp with rfl | hmem
    · simpa using hval
    · exact hv p hmem

set_option maxRecDepth 10000 in
/-- Witness for C8: "has space", "" and a 65-character alias are rejected
as invalid on the empty store, and re-registering the already-present
alias "w" yields the already-exists error. -/
theorem c8_register_alias_validation_witness :
    KeyStore.register Store.empty wMasterKey
      ⟨"has space", "k", "https://example.com", none, none⟩ 0 [] =
      Except.error aliasErrorMsg ∧
    KeyStore.register Store.empty wMasterKey
      ⟨"", "k", "https://example.com", none, none⟩ 0 [] =
      Except.error aliasErrorMsg ∧
    KeyStore.register Store.empty wMasterKey
      ⟨String.mk (List.replicate 65 'a'), "k", "https://example.com",
        none, none⟩ 0 [] = Except.error aliasErrorMsg ∧
    KeyStore.register wRegistered wMasterKey
      ⟨"w", "k2", "https://example.com", none, none⟩ 0 [] =
      Except.error (existsMsg "w") := by
  refine ⟨?_, ?_, ?_, ?_⟩
  · exact (c8_register_alias_validation Store.empty wMasterKey
      ⟨"has space", "k", "https://example.com", none, none⟩ 0 []).1
      (by decide) (by decide)
  · exact (c8_register_alias_validation Store.empty wMasterKey
      ⟨"", "k", "https://example.com", none, none⟩ 0 []).1
      (by decide) (by decide)
  · exact (c8_register_alias_validation Store.empty wMasterKey
      ⟨String.mk (List.replicate 65 'a'), "k", "https://example.com",
        none, none⟩ 0 []).1 (by decide) (by decide)
  · exact (c8_register_alias_validation wRegistered wMasterKey
      ⟨"w", "k2", "https://example.com", none, none⟩ 0 []).2.1 (by decide)

set_option maxRecDepth 10000 in
/-- C9 counterexample: through `POST /api/keys/register` with
`quota_limit = 0` supplied, the stored record has `quota_limit = 1000`,
not 0: `quota_limit ? Number(quota_limit) : 1000` treats the falsy 0 as
omitted.  This refutes the claim that a supplied 0 reaches the record
through the endpoint. -/
theorem c9_counterexample :
    ((registerEndpoint Store.empty wMasterKey "tok" (some "Bearer tok") "a"
        "k" "https://example.com" (some 0) none 5 wIv).2.map
      (fun p => p.2.quota_limit)) = some 1000 ∧
    ((registerEndpoint Store.empty wMasterKey "tok" (some "Bearer tok") "a"
        "k" "https://example.com" (some 0) none 5 wIv).2.map
      (fun p => p.2.quota_limit)) ≠ some 0 := by
  constructor <;> decide

/-- C9 (amended): a successful `KeyStore.register` stores
`quota_used = 0`, `quota_window_start = created_at = now`, `rotated_at`
unset, `owner` defaulting to "admin" only when omitted, and `quota_limit`
defaulting to 1000 only when omitted (a supplied 0 is preserved, via the
nullish `?? 1000`).  Through `POST /keys/register`, however, the stored
`quota_limit` is `endpointQuotaLimit` of the supplied value — JS
truthiness maps both 0 and omission to 1000 — and `owner` likewise passes
through `owner || "admin"`. -/
theorem c9_register_initialization :
    (∀ st mk reg now iv st' rec,
      KeyStore.register st mk reg now iv = Except.ok (st', rec) →
      rec.quota_used = 0 ∧ rec.quota_window_start = now ∧
      rec.created_at = now ∧ rec.rotated_at = none ∧
      rec.owner = reg.owner.getD "admin" ∧
      rec.quota_limit = reg.quota_limit.getD 1000) ∧
    (∀ st mk adm auth a k b ql ow now iv st' rec,
      (registerEndpoint st mk adm auth a k b ql ow now iv).2 =
        some (st', rec) →
      rec.quota_limit = endpointQuotaLimit ql ∧
      rec.owner = endpointOwner ow ∧ rec.quota_used = 0 ∧
      rec.quota_window_start = now ∧ rec.created_at = now ∧
      rec.rotated_at = none) := by
  have hfields : ∀ (st : Store) (mk : String) (reg : KeyRegistration)
      (now : Int) (iv : List Nat) (st' : Store) (rec : KeyRecord),
      KeyStore.register st mk reg now iv = Except.ok (st', rec) →
      rec.quota_used = 0 ∧ rec.quota_window_start = now ∧
      rec.created_at = now ∧ rec.rotated_at = none ∧
      rec.owner = reg.owner.getD "admin" ∧
      rec.quota_limit = reg.quota_limit.getD 1000 := by
    intro st mk reg now iv st' rec hok
    obtain ⟨_, _, enc, _, hrec, _⟩ := register_ok_shape hok
    subst hrec
    exact ⟨rfl, rfl, rfl, rfl, rfl, rfl⟩
  refine ⟨hfields, ?_⟩
  intro st mk adm auth a k b ql ow now iv st' rec h
  unfold registerEndpoint at h
  cases hadm : verifyAdminToken auth adm with
  | some e =>
    rw [hadm] at h
    simp at h
  | none =>
    rw [hadm] at h
    by_cases ha : a = ""
    · rw [if_pos ha] at h; simp at h
    · rw [if_neg ha] at h
      by_cases hk : k = ""
      · rw [if_pos hk] at h; simp at h
      · rw [if_neg hk] at h
        by_cases hb : b = ""
        · rw [if_pos hb] at h; simp at h
        · rw [if_neg hb] at h
          cases hreg : KeyStore.register st mk
              (buildRegistration a k b ql ow) now iv with
          | error msg =>
            rw [hreg] at h
            simp at h
          | ok pr =>
            rw [hreg] at h
            simp only [Option.some.injEq] at h
            have hok : KeyStore.register st mk
                (buildRegistration a k b ql ow) now iv =
                Except.ok (st', rec) := by
              rw [hreg, ← h]
            obtain ⟨h1, h2, h3, h4, h5, h6⟩ :=
              hfields st mk (buildRegistration a k b ql ow) now iv st' rec hok
            refine ⟨?_, ?_, h1, h2, h3, h4⟩
            · rw [h6]; rfl
            · rw [h5]; rfl

set_option maxRecDepth 10000 in
/-- Witness for C9: a concrete store-level registration with a supplied
`quota_limit` of 0 keeps 0 (nullish default), with `owner` defaulting to
"admin" and `rotated_at` unset. -/
theorem c9_register_initialization_witness :
    ((KeyStore.register Store.empty wMasterKey
        ⟨"a", "k", "https://example.com", some 0, none⟩ 5 wIv).map
      (fun p => (p.2.quota_used, p.2.quota_limit, p.2.rotated_at,
        p.2.owner))) = Except.ok (0, 0, none, "admin") := by
  cases hreg : KeyStore.register Store.empty wMasterKey
      ⟨"a", "k", "https://example.com", some 0, none⟩ 5 wIv with
  | error e =>
    have hok : (KeyStore.register Store.empty wMasterKey
        ⟨"a", "k", "https://example.com", some 0, none⟩ 5 wIv).isOk = true := by
      decide
    rw [hreg] at hok
    simp [Except.isOk, Except.toBool] at hok
  | ok pr =>
    have hok2 : KeyStore.register Store.empty wMasterKey
        ⟨"a", "k", "https://example.com", some 0, none⟩ 5 wIv =
        Except.ok (pr.1, pr.2) := by
      rw [hreg]
    obtain ⟨h1, h2, h3, h4, h5, h6⟩ := (c9_register_initialization).1
      Store.empty wMasterKey ⟨"a", "k", "https://example.com", some 0, none⟩
      5 wIv pr.1 pr.2 hok2
    simp [Except.map, h1, h4, h5, h6]

theorem getKey_ok_of_decrypt {st : Store} {mk a : String} {r : KeyRecord}
    {P : String} (hget : getRec st a = some r)
    (hdec : decrypt ⟨r.encrypted_key, r.iv, r.auth_tag⟩ mk = Except.ok P) :
    KeyStore.getKey st mk a = Except.ok (some P) := by
  unfold KeyStore.getKey
  rw [hget]
  simp only [Bind.bind, Except.bind, hdec]

/-- C5: for a registered alias, `rotate` overwrites only `encrypted_key`,
`iv` and `auth_tag`, sets `rotated_at = now`, and preserves `quota_limit`,
`quota_used`, `quota_window_start`, `created_at` and `owner` exactly; it
persists through a single backend `set` on that alias's key, leaving every
other alias's record untouched; afterwards the stored credential decrypts
to the new plaintext, and `rotated_at` is strictly greater than
`created_at` whenever the rotation instant is strictly after the
registration instant. -/
theorem c5_rotate_frame (st : Store) (mk a newKey : String) (now : Int)
    (iv : List Nat) (r : KeyRecord) (hget : getRec st a = some r)
    (hK : (nodeHexDecode mk.data).length = 32)
    (hiv : ∀ b ∈ iv, b < 256) :
    ∃ st' r' ops, KeyStore.rotate st mk a newKey now iv =
        Except.ok (st', r', ops) ∧
      r'.rotated_at = some now ∧
      r'.quota_limit = r.quota_limit ∧
      r'.quota_used = r.quota_used ∧
      r'.quota_window_start = r.quota_window_start ∧
      r'.created_at = r.created_at ∧
      r'.owner = r.owner ∧
      r'.base_url = r.base_url ∧
      r'.alias' = r.alias' ∧
      ops = ["glvault:key:" ++ a] ∧
      st' = setRec st a r' ∧
      (∀ b, b ≠ a → getRec st' b = getRec st b) ∧
      KeyStore.getKey st' mk a = Except.ok (some newKey) ∧
      (r.created_at < now →
        ∃ t, r'.rotated_at = some t ∧ r'.created_at < t) := by
  obtain ⟨enc, henc⟩ : ∃ enc, encrypt newKey mk iv = Except.ok enc :=
    ⟨_, @encrypt_eq_ok newKey mk iv hK⟩
  set r2 : KeyRecord := { r with
    encrypted_key := enc.ciphertext
    iv := enc.iv
    auth_tag := enc.auth_tag
    rotated_at := some now } with hr2
  have hrot : KeyStore.rotate st mk a newKey now iv =
      Except.ok (setRec st a r2, r2, ["glvault:key:" ++ a]) := by
    unfold KeyStore.rotate
    rw [hget, henc]
    simp only [Bind.bind, Except.bind, hr2]
  refine ⟨_, _, _, hrot, rfl, rfl, rfl, rfl, rfl, rfl, rfl, rfl, rfl, rfl,
    ?_, ?_, ?_⟩
  · intro b hb
    exact getRec_setRec_ne st a b _ hb
  · refine getKey_ok_of_decrypt (getRec_setRec_self st a _) ?_
    exact decrypt_of_encrypt_ok hK hiv henc
  · intro hlt
    exact ⟨now, rfl, hlt⟩

set_option maxRecDepth 10000 in
/-- Witness for C5: rotating the registered alias "w" to "NEW" at time 9
succeeds, the rotated record still decrypts through `getKey` to "NEW",
`quota_limit` stays 5, and `rotated_at = 9 > 0 = created_at`. -/
theorem c5_rotate_frame_witness :
    ∃ st' r' ops, KeyStore.rotate wRegistered wMasterKey "w" "NEW" 9 wIv =
        Except.ok (st', r', ops) ∧
      KeyStore.getKey st' wMasterKey "w" = Except.ok (some "NEW") ∧
      r'.quota_limit = 5 ∧ ops = ["glvault:key:w"] ∧
      ∃ t, r'.rotated_at = some t ∧ r'.created_at < t := by
  cases hget : getRec wRegistered "w" with
  | none =>
    have hsome : (getRec wRegistered "w").isSome = true := by decide
    rw [hget] at hsome
    simp at hsome
  | some r =>
    have hlim : r.quota_limit = 5 := by
      have hval : (getRec wRegistered "w").map (fun q => q.quota_limit) =
          some 5 := by decide
      rw [hget] at hval
      simpa using hval
    have hcre : r.created_at = 0 := by
      have hval : (getRec wRegistered "w").map (fun q => q.created_at) =
          some 0 := by decide
      rw [hget] at hval
      simpa using hval
    obtain ⟨st', r', ops, hrot, hrat, hql, hqu, hqws, hcre', how, hbu, hal,
      hops, hst', hframe, hkey, hstrict⟩ :=
      c5_rotate_frame wRegistered wMasterKey "w" "NEW" 9 wIv r hget
        (by decide) (by decide)
    refine ⟨st', r', ops, hrot, hkey, by rw [hql, hlim], by rw [hops]; rfl, ?_⟩
    exact hstrict (by rw [hcre]; decide)

/-- C6: for every plaintext string `P` and master key `K` of exactly 32
bytes (64 hex characters), decrypting the payload produced by
`encrypt(P, K)` under the same key `K` yields `P`. -/
theorem c6_encrypt_decrypt_roundtrip (P K : String) (iv : List Nat)
    (hlen : K.data.length = 64)
    (hhex : ∀ c ∈ K.data, (hexDigitVal c).isSome)
    (hiv : ∀ b ∈ iv, b < 256) :
    (encrypt P K iv).bind (fun payload => decrypt payload K) =
      Except.ok P :=
  decrypt_encrypt_of_decode32 P K iv (decode32_of_hex64 hlen hhex) hiv

set_option maxRecDepth 10000 in
/-- Witness for C6 at a concrete plaintext, 64-hex-char key and 16-byte
IV. -/
theorem c6_encrypt_decrypt_roundtrip_witness :
    (encrypt "APIKEY1" wMasterKey wIv).bind
      (fun payload => decrypt payload wMasterKey) = Except.ok "APIKEY1" :=
  c6_encrypt_decrypt_roundtrip "APIKEY1" wMasterKey wIv (by decide)
    (by decide) (by decide)

set_option maxRecDepth 10000 in
/-- C3 counterexample: for `base_url = "https://openweathermap.org.evil.com"`,
whose host `openweathermap.org.evil.com` ends in none of the configured
suffixes — so the claimed host-suffix rule demands `"api_key"` — the code
injects `"appid"`, because `buildTargetUrl` tests each configured domain by
substring containment in the whole `base_url` string
(`baseUrl.includes(domain)`), not by suffix-matching the host. -/
theorem c3_counterexample :
    selectKeyParam "https://openweathermap.org.evil.com" = "appid" ∧
    hostOf "https://openweathermap.org.evil.com" =
      "openweathermap.org.evil.com" ∧
    specKeyParamOfHost "openweathermap.org.evil.com" = "api_key" ∧
    selectKeyParam "https://openweathermap.org.evil.com" ≠
      specKeyParamOfHost "openweathermap.org.evil.com" := by
  refine ⟨?_, ?_, ?_, ?_⟩ <;> decide

/-- C3 (amended): the credential query-parameter name is chosen by testing
each configured domain for substring containment in the whole `base_url`
string, in map order (`openweathermap.org → appid`, `newsapi.org → apiKey`,
`alphavantage.co → apikey`, `googleapis.com → key`), the first match
winning; it is `"api_key"` exactly when no configured domain occurs as a
substring of `base_url`. -/
theorem c3_keyParam_substring (u : String) :
    selectKeyParam u =
      ((keyParamMap.find? (fun p => strContains u p.1)).map Prod.snd).getD
        "api_key" ∧
    ((∀ d ∈ keyParamMap, ¬ strContains u d.1) →
      selectKeyParam u = "api_key") := by
  constructor
  · exact selectKeyParamLoop_eq_find keyParamMap u
  · intro h
    rw [selectKeyParam, selectKeyParamLoop_eq_find keyParamMap u]
    have hnone : keyParamMap.find? (fun p => strContains u p.1) = none :=
      List.find?_eq_none.mpr (fun p hp => by simpa using h p hp)
    rw [hnone]
    rfl

/-- Witness for C3: no configured domain occurs in
`"https://example.com"`, so the injected parameter name is `"api_key"`. -/
theorem c3_keyParam_substring_witness :
    selectKeyParam "https://example.com" = "api_key" :=
  (c3_keyParam_substring "https://example.com").2 (by decide)

set_option maxRecDepth 10000 in
/-- C1 counterexample: a relay that passes verification and rate limiting
and whose upstream dispatch completes with upstream status 503 is answered
with HTTP code 503, not 200: the success path responds with
`res.status(externalStatus)`, so the relay's own HTTP code mirrors the
upstream status instead of being fixed at 200. -/
theorem c1_counterexample :
    (proxyHandler wRegistered "s" wMasterKey 30000 60000 "POST"
      (some ("Signature " ++ computeSignature wReq "s")) wReq 1 7
      (DispatchOutcome.ok 503 "d")).httpStatus = 503 ∧
    (proxyHandler wRegistered "s" wMasterKey 30000 60000 "POST"
      (some ("Signature " ++ computeSignature wReq "s")) wReq 1 7
      (DispatchOutcome.ok 503 "d")).httpStatus ≠ 200 ∧
    (proxyHandler wRegistered "s" wMasterKey 30000 60000 "POST"
      (some ("Signature " ++ computeSignature wReq "s")) wReq 1 7
      (DispatchOutcome.ok 503 "d")).body = some ⟨503, "d", false, 7, 4⟩ := by
  refine ⟨?_, ?_, ?_⟩ <;> decide

/-- C1 (amended): for every relay request that passes verification and
rate limiting and whose upstream dispatch completes with upstream status
`S`, the handler responds with HTTP code `S` — the upstream status is
mirrored both in the response's own HTTP code and in the body's `status`
field — and the sanitized body is
`{status: S, data, cached: false, latency_ms, remaining_quota}`, with one
audit entry of status `S` emitted. -/
theorem c1_success_response (st st' : Store) (secret masterKey : String)
    (maxAgeMs windowMs : Nat) (auth : Option String) (req : ProxyRequest)
    (now : Int) (latency : Nat) (S : Nat) (dataStr sig k : String)
    (usage : RateLimitResult) (r : KeyRecord)
    (hsig : extractSignature auth = some sig)
    (hver : verifyRequest req sig secret maxAgeMs now = none)
    (husage : KeyStore.incrementUsage st req.alias' now windowMs =
      Except.ok (st', usage))
    (hallowed : usage.allowed = true)
    (hkey : KeyStore.getKey st' masterKey req.alias' = Except.ok (some k))
    (hrec : KeyStore.getRecord st' req.alias' = some r) :
    proxyHandler st secret masterKey maxAgeMs windowMs "POST" auth req now
      latency (DispatchOutcome.ok S dataStr) =
      ⟨S, some ⟨S, dataStr, false, latency, usage.remaining⟩,
        [⟨req.alias', S, none⟩], st', false⟩ := by
  simp [proxyHandler, hsig, hver, husage, hallowed, hkey, hrec]

set_option maxRecDepth 10000 in
/-- Witness for C1 (amended) at the registered fixture: upstream status
207 is mirrored as the HTTP code, with `remaining_quota = 4` and a single
status-207 audit entry. -/
theorem c1_success_response_witness :
    proxyHandler wRegistered "s" wMasterKey 30000 60000 "POST"
      (some ("Signature " ++ computeSignature wReq "s")) wReq 1 7
      (DispatchOutcome.ok 207 "d") =
      ⟨207, some ⟨207, "d", false, 7, 4⟩, [⟨"w", 207, none⟩],
        wIncremented, false⟩ :=
  c1_success_response wRegistered wIncremented "s" wMasterKey 30000 60000
    (some ("Signature " ++ computeSignature wReq "s")) wReq 1 7 207 "d"
    (computeSignature wReq "s") "SECRET" ⟨true, 4⟩
    ((KeyStore.getRecord wIncremented "w").get (by decide))
    (by decide) (by decide) (by rfl) (by rfl) (by rfl)
    (Option.some_get _).symm

set_option maxRecDepth 10000 in
/-- C2 counterexample: a relay for alias "w" that passes VERIFY and RATE
but hits an integrity failure at DECRYPT emits no audit entry (the
`getKey` exception escapes the handler), and a relay for an unknown alias
terminates at the RATE step with 404 and likewise emits no audit entry.
Both are terminal states at or after RATE, refuting the claim that every
such invocation emits an audit entry. -/
theorem c2_counterexample :
    (proxyHandler wTampered "s" wMasterKey 30000 60000 "POST"
      (some ("Signature " ++ computeSignature wReq "s")) wReq 1 7
      (DispatchOutcome.ok 200 "d")).audits = [] ∧
    (proxyHandler wTampered "s" wMasterKey 30000 60000 "POST"
      (some ("Signature " ++ computeSignature wReq "s")) wReq 1 7
      (DispatchOutcome.ok 200 "d")).crashed = true ∧
    (proxyHandler wRegistered "s" wMasterKey 30000 60000 "POST"
      (some ("Signature " ++ computeSignature wReqU "s")) wReqU 1 7
      (DispatchOutcome.ok 200 "d")).audits = [] ∧
    (proxyHandler wRegistered "s" wMasterKey 30000 60000 "POST"
      (some ("Signature " ++ computeSignature wReqU "s")) wReqU 1 7
      (DispatchOutcome.ok 200 "d")).httpStatus = 404 := by
  refine ⟨?_, ?_, ?_, ?_⟩ <;> decide

/-- C2 (amended): the relay handler emits an audit entry exactly on the
rate-limit-rejection, upstream-dispatch-failure and success paths — a
single entry with status 429, 502 or the upstream status respectively —
and emits no audit entry when the signature header is missing, when VERIFY
fails, when the alias is unknown at the RATE step (404), when the record
is absent at the DECRYPT step (404), or when decryption fails its
integrity check (unhandled exception). -/
theorem c2_audit_emission (st : Store) (secret masterKey : String)
    (maxAgeMs windowMs : Nat) (auth : Option String) (req : ProxyRequest)
    (now : Int) (latency : Nat) (disp : DispatchOutcome) :
    (extractSignature auth = none →
      (proxyHandler st secret masterKey maxAgeMs windowMs "POST" auth req
        now latency disp).audits = []) ∧
    (∀ sig e, extractSignature auth = some sig →
      verifyRequest req sig secret maxAgeMs now = some e →
      (proxyHandler st secret masterKey maxAgeMs windowMs "POST" auth req
        now latency disp).audits = []) ∧
    (∀ sig e, extractSignature auth = some sig →
      verifyRequest req sig secret maxAgeMs now = none →
      KeyStore.incrementUsage st req.alias' now windowMs =
        Except.error e →
      (proxyHandler st secret masterKey maxAgeMs windowMs "POST" auth req
        now latency disp).audits = [] ∧
      (proxyHandler st secret masterKey maxAgeMs windowMs "POST" auth req
        now latency disp).httpStatus = 404) ∧
    (∀ sig st' usage, extractSignature auth = some sig →
      verifyRequest req sig secret maxAgeMs now = none →
      KeyStore.incrementUsage st req.alias' now windowMs =
        Except.ok (st', usage) →
      usage.allowed = false →
      (proxyHandler st secret masterKey maxAgeMs windowMs "POST" auth req
        now latency disp).audits =
        [⟨req.alias', 429, some "Rate limit exceeded"⟩]) ∧
    (∀ sig st' usage, extractSignature auth = some sig →
      verifyRequest req sig secret maxAgeMs now = none →
      KeyStore.incrementUsage st req.alias' now windowMs =
        Except.ok (st', usage) →
      usage.allowed = true →
      KeyStore.getKey st' masterKey req.alias' = Except.ok none →
      (proxyHandler st secret masterKey maxAgeMs windowMs "POST" auth req
        now latency disp).audits = [] ∧
      (proxyHandler st secret masterKey maxAgeMs windowMs "POST" auth req
        now latency disp).httpStatus = 404) ∧
    (∀ sig st' usage e, extractSignature auth = some sig →
      verifyRequest req sig secret maxAgeMs now = none →
      KeyStore.incrementUsage st req.alias' now windowMs =
        Except.ok (st', usage) →
      usage.allowed = true →
      KeyStore.getKey st' masterKey req.alias' = Except.error e →
      (proxyHandler st secret masterKey maxAgeMs windowMs "POST" auth req
        now latency disp).audits = [] ∧
      (proxyHandler st secret masterKey maxAgeMs windowMs "POST" auth req
        now latency disp).crashed = true) ∧
    (∀ sig st' usage k r msg, extractSignature auth = some sig →
      verifyRequest req sig secret maxAgeMs now = none →
      KeyStore.incrementUsage st req.alias' now windowMs =
        Except.ok (st', usage) →
      usage.allowed = true →
      KeyStore.getKey st' masterKey req.alias' = Except.ok (some k) →
      KeyStore.getRecord st' req.alias' = some r →
      disp = DispatchOutcome.netError msg →
      (proxyHandler st secret masterKey maxAgeMs windowMs "POST" auth req
        now latency disp).audits = [⟨req.alias', 502, some msg⟩]) ∧
    (∀ sig st' usage k r S d, extractSignature auth = some sig →
      verifyRequest req sig secret maxAgeMs now = none →
      KeyStore.incrementUsage st req.alias' now windowMs =
        Except.ok (st', usage) →
      usage.allowed = true →
      KeyStore.getKey st' masterKey req.alias' = Except.ok (some k) →
      KeyStore.getRecord st' req.alias' = some r →
      disp = DispatchOutcome.ok S d →
      (proxyHandler st secret masterKey maxAgeMs windowMs "POST" auth req
        now latency disp).audits = [⟨req.alias', S, none⟩]) := by
  refine ⟨?_, ?_, ?_, ?_, ?_, ?_, ?_, ?_⟩
  · intro hsig
    simp [proxyHandler, hsig]
  · intro sig e hsig hver
    simp [proxyHandler, hsig, hver]
  · intro sig e hsig hver husage
    constructor <;> simp [proxyHandler, hsig, hver, husage]
  · intro sig st' usage hsig hver husage hallowed
    simp [proxyHandler, hsig, hver, husage, hallowed]
  · intro sig st' usage hsig hver husage hallowed hkey
    constructor <;> simp [proxyHandler, hsig, hver, husage, hallowed, hkey]
  · intro sig st' usage e hsig hver husage hallowed hkey
    constructor <;> simp [proxyHandler, hsig, hver, husage, hallowed, hkey]
  · intro sig st' usage k r msg hsig hver husage hallowed hkey hrec hdisp
    subst hdisp
    simp [proxyHandler, hsig, hver, husage, hallowed, hkey, hrec]
  · intro sig st' usage k r S d hsig hver husage hallowed hkey hrec hdisp
    subst hdisp
    simp [proxyHandler, hsig, hver, husage, hallowed, hkey, hrec]

set_option maxRecDepth 10000 in
/-- Witness for C2 (amended): at the registered fixture, an upstream
network failure emits exactly one audit entry with status 502 and the
error message. -/
theorem c2_audit_emission_witness :
    (proxyHandler wRegistered "s" wMasterKey 30000 60000 "POST"
      (some ("Signature " ++ computeSignature wReq "s")) wReq 1 7
      (DispatchOutcome.netError "boom")).audits =
      [⟨"w", 502, some "boom"⟩] :=
  (c2_audit_emission wRegistered "s" wMasterKey 30000 60000
    (some ("Signature " ++ computeSignature wReq "s")) wReq 1 7
    (DispatchOutcome.netError "boom")).2.2.2.2.2.2.1
    (computeSignature wReq "s") wIncremented ⟨true, 4⟩ "SECRET"
    ((KeyStore.getRecord wIncremented "w").get (by decide)) "boom"
    (by decide) (by decide) (by rfl) (by rfl) (by rfl)
    (Option.some_get _).symm rfl

theorem hexCaseVariant_hexUpperChar (c : Char) :
    hexCaseVariant (hexUpperChar c) c = true := by
  unfold hexUpperChar
  split_ifs with h1 h2 h3 h4 h5 h6
  · subst h1; decide
  · subst h2; decide
  · subst h3; decide
  · subst h4; decide
  · subst h5; decide
  · subst h6; decide
  · simp [hexCaseVariant]

theorem forall2_hexUpper (l : List Char) :
    List.Forall₂ (fun a b => hexCaseVariant a b = true)
      (l.map hexUpperChar) l := by
  induction l with
  | nil => exact List.Forall₂.nil
  | cons c cs ih => exact List.Forall₂.cons (hexCaseVariant_hexUpperChar c) ih

/-- Witness for C7: with `max_age_ms = 30000`, a skew of 30001 in either
direction is rejected with the expiry reason, and a skew of 29999 on an
otherwise-valid signed request verifies. -/
theorem c7_verifyRequest_freshness_witness :
    verifyRequest ⟨"w", "/p", "GET", 0, "n1"⟩ "x" "s" 30000 30001 =
      some (staleMsg 30001 30000) ∧
    verifyRequest ⟨"w", "/p", "GET", 0, "n1"⟩
      (computeSignature ⟨"w", "/p", "GET", 0, "n1"⟩ "s") "s" 30000 29999 =
      none ∧
    verifyRequest ⟨"w", "/p", "GET", 0, "n1"⟩ "x" "s" 30000 (-30001) =
      some (staleMsg 30001 30000) := by
  refine ⟨?_, ?_, ?_⟩
  · exact (c7_verifyRequest_freshness ⟨"w", "/p", "GET", 0, "n1"⟩ "x" "s"
      30000 30001).2.2.2 (by decide)
  · exact (c7_verifyRequest_freshness ⟨"w", "/p", "GET", 0, "n1"⟩
      (computeSignature ⟨"w", "/p", "GET", 0, "n1"⟩ "s") "s" 30000
      29999).2.2.1 (by decide) (by decide) (by decide) (by decide) rfl
      (by decide)
  · exact (c7_verifyRequest_freshness ⟨"w", "/p", "GET", 0, "n1"⟩ "x" "s"
      30000 (-30001)).2.2.2 (by decide)

/-- Witness for C10: the all-uppercase rendering of the canonical
signature verifies, and a 2-byte hex string is rejected with
"Invalid signature". -/
theorem c10_signature_byte_compare_witness :
    verifyRequest wReq (hexUpper (computeSignature wReq "s")) "s" 30000 1 =
      none ∧
    verifyRequest wReq "abcd" "s" 30000 1 = some "Invalid signature" := by
  constructor
  · exact (c10_signature_byte_compare wReq "s" 30000 1 (by decide)
      (by decide) (by decide) (by decide) (by decide)).1
      (hexUpper (computeSignature wReq "s"))
      (forall2_hexUpper (computeSignature wReq "s").data)
  · exact (c10_signature_byte_compare wReq "s" 30000 1 (by decide)
      (by decide) (by decide) (by decide) (by decide)).2.1 "abcd"
      (by decide)

end GLVault
